import Mathlib

/-!
Shallow embedding of the Maveli Telegram-bot conversation pipeline
(`main.py`) and its SQLite persistence layer (`database.py`).

External effects (the remote Gemini model, the gTTS service, the Telegram
transport, the database engine and the wall clock) are modelled as oracle
inputs: every place in the source where a remote call can raise or return
data is represented by an explicit oracle field, and the `try/except`
blocks of the source become the corresponding case splits of total Lean
functions.
-/

namespace Maveli

/-! ## Text cleaning (`clean_text_for_tts`, main.py 250-281) -/

/-- Character class of the `emoji_pattern` regex in `clean_text_for_tts`:
the union of the code-point ranges and single code points listed in the
source, tested on the character's code point. -/
def isEmojiChar (c : Char) : Bool :=
  let n := c.toNat
  (0x1F600 ≤ n && n ≤ 0x1F64F) ||
  (0x1F300 ≤ n && n ≤ 0x1F5FF) ||
  (0x1F680 ≤ n && n ≤ 0x1F6FF) ||
  (0x1F1E0 ≤ n && n ≤ 0x1F1FF) ||
  (0x2500 ≤ n && n ≤ 0x2BEF) ||
  (0x2702 ≤ n && n ≤ 0x27B0) ||
  (0x24C2 ≤ n && n ≤ 0x1F251) ||
  (0x1F926 ≤ n && n ≤ 0x1F937) ||
  (0x10000 ≤ n && n ≤ 0x10FFFF) ||
  (0x2640 ≤ n && n ≤ 0x2642) ||
  (0x2600 ≤ n && n ≤ 0x2B55) ||
  n == 0x200D || n == 0x23CF || n == 0x23E9 || n == 0x231A ||
  n == 0xFE0F || n == 0x3030

/-- Python regex `\s` character class (Unicode mode) used by
`re.sub(r'\s+', ' ', ...)` and `str.strip`. -/
def isWs (c : Char) : Bool :=
  let n := c.toNat
  (0x9 ≤ n && n ≤ 0xD) || n == 0x20 ||
  (0x1C ≤ n && n ≤ 0x1F) || n == 0x85 || n == 0xA0 ||
  n == 0x1680 || (0x2000 ≤ n && n ≤ 0x200A) ||
  n == 0x2028 || n == 0x2029 || n == 0x202F || n == 0x205F || n == 0x3000

/-- Effect of `emoji_pattern.sub(r'', text)`: every character matched by
the class is removed. -/
def removeEmojis (l : List Char) : List Char :=
  l.filter (fun c => !isEmojiChar c)

/-- Effect of `re.sub(r'\s+', ' ', t)`: each maximal run of whitespace is
replaced by a single space.  The boolean flag records whether the previous
character belonged to a whitespace run already emitted. -/
def collapseAux : List Char → Bool → List Char
  | [], _ => []
  | c :: cs, prevWs =>
    if isWs c then
      if prevWs then collapseAux cs true else ' ' :: collapseAux cs true
    else c :: collapseAux cs false

/-- Whitespace-run collapsing, starting outside any run. -/
def collapseWs (l : List Char) : List Char :=
  collapseAux l false

/-- Effect of `str.strip()`: leading and trailing whitespace removed. -/
def stripChars (l : List Char) : List Char :=
  ((l.dropWhile isWs).reverse.dropWhile isWs).reverse

/-- List-of-characters body of `clean_text_for_tts` (main.py 250-281):
remove the emoji character class, collapse whitespace runs to single
spaces, strip the ends. -/
def cleanList (l : List Char) : List Char :=
  stripChars (collapseWs (removeEmojis l))

/-- Source function `clean_text_for_tts(text)` (main.py 250-281). -/
def clean_text_for_tts (s : String) : String :=
  ⟨cleanList s.data⟩

/-! ## Response generator (`generate_maveli_response`, main.py 145-248) -/

/-- Source list `fallback_responses` (main.py 234-245), copied verbatim
from the repository file (the file stores the Malayalam text in a
doubly-encoded form; the ten entries are embedded byte-for-byte). -/
def fallback_responses : List String := [
  "‡¥π‡¥≤‡µã ‡¥é‡¥®‡µç‡¥±‡µÜ ‡¥™‡µç‡¥∞‡¥ø‡¥Ø ‡¥™‡µç‡¥∞‡¥ú‡¥ï‡¥≥‡µá! ‡¥é‡¥®‡µç‡¥§‡¥æ‡¥£‡µç ‡¥Ö‡¥±‡¥ø‡¥Ø‡¥æ‡µª ‡¥â‡¥≥‡µç‡¥≥‡¥§‡µç? ‡¥∞‡¥æ‡¥ú‡¥æ‡¥µ‡¥ø‡¥®‡µç‡¥±‡µÜ ‡¥™‡¥ï‡µç‡¥ï‡µΩ ‡¥é‡¥≤‡µç‡¥≤‡¥æ ‡¥Ö‡¥±‡¥ø‡¥µ‡µÅ‡¥Ç ‡¥â‡¥£‡µç‡¥ü‡µç! üëëüî•",
  "‡¥¶‡¥æ ‡¥¨‡µç‡¥∞‡µã! ‡¥é‡¥®‡µç‡¥§‡µá‡¥≤‡µÅ‡¥Ç ‡¥ö‡µã‡¥¶‡¥ø‡¥ï‡µç‡¥ï‡¥æ‡¥®‡µÅ‡¥£‡µç‡¥ü‡µã? ‡¥™‡¥æ‡¥ü‡µç‡¥ü‡µã, ‡¥ï‡¥•‡¥Ø‡µã, ‡¥Ö‡¥±‡¥ø‡¥µ‡µã - ‡¥é‡¥≤‡µç‡¥≤‡¥æ‡¥Ç ‡¥§‡¥∞‡¥æ‡¥Ç! üéµüòé",
  "‡¥Æ‡µã‡¥®‡µá, ‡¥Æ‡¥æ‡¥µ‡µá‡¥≤‡¥ø ‡¥∞‡¥æ‡¥ú‡¥æ‡¥µ‡µç ‡¥á‡¥µ‡¥ø‡¥ü‡µÜ! ‡¥™‡¥æ‡¥ü‡µç‡¥ü‡µç ‡¥µ‡µá‡¥£‡µã? ‡¥ï‡¥• ‡¥µ‡µá‡¥£‡µã? ‡¥é‡¥®‡µç‡¥§‡µÅ‡¥Ç ‡¥ö‡µã‡¥¶‡¥ø‡¥ï‡µç‡¥ï‡µÇ! ‚ö°üëë",
  "‡¥™‡µä‡¥≥‡¥ø‡¥ö‡µç‡¥ö‡µÅ! ‡¥é‡¥®‡µç‡¥±‡µÜ ‡¥ï‡¥ø‡¥Ç‡¥ó‡µç‡¥°‡¥§‡µç‡¥§‡¥ø‡¥≤‡µÜ ‡¥é‡¥≤‡µç‡¥≤‡¥æ ‡¥Ö‡¥±‡¥ø‡¥µ‡µÅ‡¥Ç ‡¥®‡¥ø‡¥®‡¥ï‡µç‡¥ï‡µç ‡¥§‡¥∞‡¥æ‡¥Ç, ‡¥™‡¥æ‡¥ü‡µç‡¥ü‡µÅ‡¥Ç ‡¥™‡¥æ‡¥ü‡¥æ‡¥Ç! üé≠üî•",
  "‡¥ï‡¥ø‡¥ü‡¥ø‡¥≤‡µª ‡¥µ‡µà‡¥¨‡µç‡¥∏‡µç! ‡¥∞‡¥æ‡¥ú‡¥æ‡¥µ‡¥ø‡¥®‡µç‡¥±‡µÜ ‡¥™‡¥ï‡µç‡¥ï‡µΩ ‡¥é‡¥≤‡µç‡¥≤‡¥æ ‡¥ú‡µç‡¥û‡¥æ‡¥®‡¥µ‡µÅ‡¥Ç ‡¥â‡¥£‡µç‡¥ü‡µç - ‡¥ö‡µã‡¥¶‡¥ø‡¥ö‡µç‡¥ö‡µã‡¥≥‡µÇ! üí´üëë",
  "‡¥Æ‡¥æ‡¥∏‡µç‡¥∏‡µç ‡¥é‡µª‡¥ü‡µç‡¥∞‡¥ø! ‡¥Æ‡¥æ‡¥µ‡µá‡¥≤‡¥ø ‡¥∞‡¥æ‡¥ú‡¥æ‡¥µ‡µç ‡¥±‡µÜ‡¥°‡¥ø - ‡¥™‡¥æ‡¥ü‡µç‡¥ü‡µÅ‡¥Ç ‡¥™‡¥æ‡¥ü‡¥æ‡¥Ç, ‡¥ï‡¥•‡¥Ø‡µÅ‡¥Ç ‡¥™‡¥±‡¥Ø‡¥æ‡¥Ç! üöÄüéµ",
  "‡¥≤‡¥ø‡¥±‡µç‡¥±‡µç ‡¥µ‡µà‡¥¨‡µç‡¥∏‡µç! ‡¥é‡¥®‡µç‡¥§‡µÜ‡¥ô‡µç‡¥ï‡¥ø‡¥≤‡µÅ‡¥Ç ‡¥Ö‡¥±‡¥ø‡¥Ø‡¥æ‡¥®‡µÅ‡¥£‡µç‡¥ü‡µã? ‡¥ì‡¥£‡¥™‡µç‡¥™‡¥æ‡¥ü‡µç‡¥ü‡µÅ‡¥Ç ‡¥™‡¥æ‡¥ü‡¥æ‡¥Ç! üåüüé≠",
  "‡¥´‡¥Ø‡µº ‡¥é‡¥®‡µº‡¥ú‡¥ø! ‡¥∞‡¥æ‡¥ú‡¥æ‡¥µ‡¥ø‡¥®‡µç‡¥±‡µÜ ‡¥ï‡¥ø‡¥Ç‡¥ó‡µç‡¥°‡¥§‡µç‡¥§‡¥ø‡µΩ ‡¥é‡¥®‡µç‡¥§‡µÅ‡¥Ç ‡¥ö‡µã‡¥¶‡¥ø‡¥ï‡µç‡¥ï‡¥æ‡¥Ç! üí™üî•",
  "‡¥∏‡µÇ‡¥™‡µç‡¥™‡µº ‡¥ï‡¥ø‡¥Ç‡¥ó‡µç ‡¥Æ‡¥æ‡¥µ‡µá‡¥≤‡¥ø ‡¥π‡¥ø‡¥Ø‡µº! ‡¥ó‡¥æ‡¥®‡¥Ç, ‡¥ï‡¥•, ‡¥Ö‡¥±‡¥ø‡¥µ‡µç - ‡¥é‡¥≤‡µç‡¥≤‡¥æ‡¥Ç ‡¥±‡µÜ‡¥°‡¥ø! üéØüëë",
  "‡¥Ö‡¥ü‡¥ø‡¥™‡µä‡¥≥‡¥ø ‡¥é‡µª‡¥ü‡µç‡¥∞‡¥ø! ‡¥∞‡¥æ‡¥ú‡¥ï‡µÄ‡¥Ø ‡¥∏‡µá‡¥µ‡¥®‡¥§‡µç‡¥§‡¥ø‡µΩ ‡¥é‡¥®‡µç‡¥§‡µÅ‡¥Ç ‡¥ö‡µã‡¥¶‡¥ø‡¥ï‡µç‡¥ï‡µÇ ‡¥¨‡µç‡¥∞‡µã! üéµ‚ö°"
]

/-- Index computed on the fallback path (main.py 247):
`hash(user_message + str(user_id)) % len(fallback_responses)`.
Python `hash` is an opaque per-process function modelled by the
parameter `h`; Python `%` with a positive modulus is `Int.emod`. -/
def fallback_index (h : String → Int) (msg : String) (uid : Int) : Nat :=
  (h (msg ++ toString uid) % (fallback_responses.length : Int)).toNat

/-- Reply returned by the `except` handler of `generate_maveli_response`
(main.py 231-248). -/
def fallback_reply (h : String → Int) (msg : String) (uid : Int) : String :=
  fallback_responses.getD (fallback_index h msg uid) ""

/-- Source function `generate_maveli_response(user_message, user_id)`
(main.py 145-248).  The remote Gemini exchange (lines 147-222) is
abstracted by the oracle `extracted`: `some t` is the stripped text the
extraction ladder produced (possibly empty), `none` means the remote call
or the extraction raised.  Lines 224-229 return the text when it is
non-empty and otherwise raise `ValueError`; every raise lands in the
`except` block, which returns the hash-selected fallback entry.  The
function being total in Lean mirrors the catch-all `except Exception`
handler: no path re-raises to the caller. -/
def generate_maveli_response (h : String → Int) (extracted : Option String)
    (msg : String) (uid : Int) : String :=
  match extracted with
  | some t => if t = "" then fallback_reply h msg uid else t
  | none => fallback_reply h msg uid

/-! ## Speech synthesis (`text_to_speech_malayalam`, main.py 283-307) -/

/-- Observable outcome of one `text_to_speech_malayalam` call: the value
returned to the caller, whether the remote gTTS service was invoked, and
whether a temporary file was created on disk during the call. -/
structure TtsTrace where
  result : Option String
  remote_called : Bool
  temp_created : Bool
deriving DecidableEq, Repr

/-- Source function `text_to_speech_malayalam(text)` (main.py 283-307).
`tts_err` is the oracle for the remote gTTS call raising; `temp_name` is
the fresh name produced by `tempfile.NamedTemporaryFile`.  The source
creates the temporary file (line 294) before the gTTS call, so on a
remote error the file has already been created and is not removed; the
`except` block returns `None`.  When the cleaned text is empty the
function returns `None` before any file creation or remote call. -/
def text_to_speech_malayalam (tts_err : Bool) (temp_name : String)
    (text : String) : TtsTrace :=
  if clean_text_for_tts text = "" then ⟨none, false, false⟩
  else if tts_err then ⟨none, true, true⟩
  else ⟨some temp_name, true, true⟩

/-- Source function `cleanup_temp_file(file_path)` (main.py 309-316) on
the modelled disk (the list of existing temporary files): `os.unlink` of
the path when present; its `try/except` never raises. -/
def cleanup_temp_file (disk : List String) (file_path : String) : List String :=
  disk.filter (fun f => f != file_path)

/-! ## Persistence layer (`database.py`) -/

/-- Row of the `users` table (database.py 26-36); the two datetime
columns are not modelled. -/
structure UserRow where
  id : Int
  username : Option String
  first_name : Option String
  last_name : Option String
  message_count : Nat
  is_active : Bool
deriving DecidableEq, Repr

/-- Row of the `conversations` table (database.py 38-48); the surrogate
primary key is the list position, the timestamp is supplied by the clock
oracle. -/
structure ConvRow where
  user_id : Int
  user_message : String
  bot_response : String
  timestamp : Nat
  response_time_ms : Option Nat
  audio_generated : Bool
  language_detected : Option String
deriving DecidableEq, Repr

/-- Committed state of the SQLite database. -/
structure DBState where
  users : List UserRow
  conversations : List ConvRow
deriving DecidableEq, Repr

/-- Empty database. -/
def DBState.init : DBState := ⟨[], []⟩

/-- Source method `DatabaseManager.create_or_update_user` (database.py
71-105).  `err` is the oracle for a `SQLAlchemyError` anywhere in the
`try` block; the `except` block rolls the session back (committed state
unchanged) and returns `False`.  On success: update the name fields,
increment `message_count` for an existing row, or insert a fresh row with
`message_count = 1`. -/
def create_or_update_user (db : DBState) (err : Bool) (uid : Int)
    (username first_name last_name : Option String) : DBState × Bool :=
  if err then (db, false)
  else if db.users.any (fun u => u.id == uid) then
    ({ db with users := db.users.map (fun u =>
        if u.id == uid then
          { u with username := username, first_name := first_name,
                   last_name := last_name,
                   message_count := u.message_count + 1 }
        else u) }, true)
  else
    ({ db with users := db.users ++
        [⟨uid, username, first_name, last_name, 1, true⟩] }, true)

/-- Source method `DatabaseManager.save_conversation` (database.py
107-133): append one row and commit, or roll back and return `False` on a
storage error. -/
def save_conversation (db : DBState) (err : Bool) (row : ConvRow) :
    DBState × Bool :=
  if err then (db, false)
  else ({ db with conversations := db.conversations ++ [row] }, true)

/-- Ordering used by `order_by(Conversation.timestamp.desc())`:
descending timestamp. -/
def tsDesc (a b : ConvRow) : Prop := b.timestamp ≤ a.timestamp

instance : DecidableRel tsDesc := fun a b => Nat.decLe b.timestamp a.timestamp

instance : IsTotal ConvRow tsDesc :=
  ⟨fun a b => (Nat.le_total b.timestamp a.timestamp).elim Or.inl Or.inr⟩

instance : IsTrans ConvRow tsDesc :=
  ⟨fun _ _ _ hab hbc => Nat.le_trans hbc hab⟩

/-- Dictionary built per row by `get_user_conversation_history`
(database.py 148-153). -/
structure HistEntry where
  user_message : String
  bot_response : String
  timestamp : Nat
  audio_generated : Bool
deriving DecidableEq, Repr

/-- Projection of a conversation row to the returned dictionary. -/
def ConvRow.toEntry (c : ConvRow) : HistEntry :=
  ⟨c.user_message, c.bot_response, c.timestamp, c.audio_generated⟩

/-- Success-path query of `get_user_conversation_history` (database.py
140-156): filter the user's rows, order by timestamp descending (the SQL
sort is modelled by insertion sort under `tsDesc`), take `limit`, project
each row, and reverse into chronological order. -/
def history_query (db : DBState) (uid : Int) (limit : Nat) : List HistEntry :=
  (((((db.conversations.filter (fun c => c.user_id == uid)).insertionSort
      tsDesc).take limit).map ConvRow.toEntry)).reverse

/-- Source method `DatabaseManager.get_user_conversation_history`
(database.py 135-162): on a storage error the session is closed (no
committed change) and the empty list is returned. -/
def get_user_conversation_history (db : DBState) (err : Bool) (uid : Int)
    (limit : Nat) : DBState × List HistEntry :=
  if err then (db, [])
  else (db, history_query db uid limit)

/-- Aggregates returned by `get_user_stats` (database.py 224-229). -/
structure StatsSummary where
  total_users : Nat
  active_users : Nat
  total_conversations : Nat
  total_audio_messages : Nat
deriving DecidableEq, Repr

/-- Source method `DatabaseManager.get_user_stats` (database.py 212-240):
four aggregate counts, or the zeroed dictionary on a storage error. -/
def get_user_stats (db : DBState) (err : Bool) : DBState × StatsSummary :=
  if err then (db, ⟨0, 0, 0, 0⟩)
  else (db, ⟨db.users.length,
             (db.users.filter (fun u => u.is_active)).length,
             db.conversations.length,
             (db.conversations.filter (fun c => c.audio_generated)).length⟩)

/-! ## Turn orchestrator (`handle_message`, main.py 337-459) -/

/-- Entry of the `bot_stats['recent_messages']` ring buffer
(main.py 358-365, 416-419). -/
structure RecentMsg where
  user_id : Int
  message : String
  response_sent : Bool
  response : Option String
deriving DecidableEq, Repr

/-- In-memory `bot_stats` dictionary (main.py 58-66); the two datetime
fields are not modelled. -/
structure BotStats where
  total_messages : Nat
  successful_responses : Nat
  failed_responses : Nat
  audio_generations : Nat
  recent_messages : List RecentMsg
deriving DecidableEq, Repr

/-- Process state visible to the claims: in-memory stats, committed
database, and the set of temporary audio files currently on disk. -/
structure World where
  stats : BotStats
  db : DBState
  disk : List String
deriving DecidableEq, Repr

/-- Process start state. -/
def World.init : World := ⟨⟨0, 0, 0, 0, []⟩, DBState.init, []⟩

/-- Append to `recent_messages` then trim to the last 50 entries
(main.py 358-369: `append` followed by `if len > 50: ... = ...[-50:]`). -/
def pushRecent (l : List RecentMsg) (e : RecentMsg) : List RecentMsg :=
  let grown := l ++ [e]
  if 50 < grown.length then grown.drop (grown.length - 50) else grown

/-- Mutation of the last ring-buffer entry after a delivered reply
(main.py 417-419 and 443-445): set `response_sent` and store the first
100 characters of the response. -/
def markLast (l : List RecentMsg) (resp : String) : List RecentMsg :=
  match l.getLast? with
  | none => l
  | some e => l.dropLast ++
      [{ e with response_sent := true, response := some (resp.take 100) }]

/-- Per-message inputs taken from the Telegram message object. -/
structure TurnInput where
  uid : Int
  msg : String
  username : Option String
  first_name : Option String
  last_name : Option String
deriving DecidableEq, Repr

/-- Oracle for the external effects of one turn: storage errors for the
upsert and the save, the Gemini extraction outcome, whether each Telegram
call succeeds (`send_chat_action` twice, `send_voice`, `reply_to`), the
gTTS outcome, the clock reading used as the saved row's timestamp, the
measured latency, and the fresh temporary-file name. -/
structure TurnOracle where
  upsert_err : Bool
  typing_ok : Bool
  gen_extracted : Option String
  voice_action_ok : Bool
  tts_err : Bool
  send_voice_ok : Bool
  reply_ok : Bool
  save_err : Bool
  timestamp : Nat
  latency_ms : Nat
  temp_name : String
deriving DecidableEq, Repr

/-- Increment of `bot_stats['failed_responses']` performed by the
`except` block of `handle_message` (main.py 449-459); the apology message
send is swallowed either way and changes no modelled state. -/
def bumpFailed (s : BotStats) : BotStats :=
  { s with failed_responses := s.failed_responses + 1 }

/-- Source handler `handle_message(message)` (main.py 337-459), one turn:
count the message, upsert the user (its failure only logged), push the
ring-buffer entry, then the `try` block: typing action, response
generation (total by construction), voice-upload action, speech
synthesis, and either voice delivery followed by temp-file cleanup,
counter updates, save and ring-buffer marking, or text delivery with the
same bookkeeping; any Telegram call raising lands in the `except` block,
which only increments `failed_responses` — in particular it does not
delete a temporary file created earlier in the turn. -/
def handle_message (h : String → Int) (w : World) (inp : TurnInput)
    (o : TurnOracle) : World :=
  let stats1 : BotStats :=
    { total_messages := w.stats.total_messages + 1
      successful_responses := w.stats.successful_responses
      failed_responses := w.stats.failed_responses
      audio_generations := w.stats.audio_generations
      recent_messages := pushRecent w.stats.recent_messages
        ⟨inp.uid, inp.msg.take 200, false, none⟩ }
  let db1 := (create_or_update_user w.db o.upsert_err inp.uid
    inp.username inp.first_name inp.last_name).1
  if o.typing_ok = false then ⟨bumpFailed stats1, db1, w.disk⟩
  else
    let resp := generate_maveli_response h o.gen_extracted inp.msg inp.uid
    if o.voice_action_ok = false then ⟨bumpFailed stats1, db1, w.disk⟩
    else
      let tts := text_to_speech_malayalam o.tts_err o.temp_name resp
      let disk1 := if tts.temp_created then w.disk ++ [o.temp_name] else w.disk
      match tts.result with
      | some path =>
        if o.send_voice_ok then
          let disk2 := cleanup_temp_file disk1 path
          let db2 := (save_conversation db1 o.save_err
            ⟨inp.uid, inp.msg, resp, o.timestamp, some o.latency_ms,
             true, none⟩).1
          ⟨{ stats1 with
               audio_generations := stats1.audio_generations + 1
               successful_responses := stats1.successful_responses + 1
               recent_messages := markLast stats1.recent_messages resp },
           db2, disk2⟩
        else ⟨bumpFailed stats1, db1, disk1⟩
      | none =>
        if o.reply_ok then
          let db2 := (save_conversation db1 o.save_err
            ⟨inp.uid, inp.msg, resp, o.timestamp, some o.latency_ms,
             false, none⟩).1
          ⟨{ stats1 with
               successful_responses := stats1.successful_responses + 1
               recent_messages := markLast stats1.recent_messages resp },
           db2, disk1⟩
        else ⟨bumpFailed stats1, db1, disk1⟩

/-- Delivery of the generated reply succeeds in this turn: `send_voice`
succeeds when synthesis produced audio, `reply_to` succeeds otherwise. -/
def deliveryOk (h : String → Int) (inp : TurnInput) (o : TurnOracle) : Bool :=
  match (text_to_speech_malayalam o.tts_err o.temp_name
      (generate_maveli_response h o.gen_extracted inp.msg inp.uid)).result with
  | some _ => o.send_voice_ok
  | none => o.reply_ok

/-- Sequence of turns processed by the single polling loop. -/
def run (h : String → Int) (turns : List (TurnInput × TurnOracle))
    (w : World) : World :=
  turns.foldl (fun acc t => handle_message h acc t.1 t.2) w

/-- Referential-integrity check of the claims: every conversation row's
`user_id` has a matching `users` row. -/
def convUserInv (w : World) : Bool :=
  w.db.conversations.all (fun c => w.db.users.any (fun u => u.id == c.user_id))

/-- Fixed hash used to instantiate concrete executions. -/
def zeroHash : String → Int := fun _ => 0

/-! ## Normal forms of cleaned text (proof-side predicates) -/

/-- Character list in whitespace normal form: every whitespace character
is a plain space, and no two adjacent characters are both whitespace. -/
def wsNormal (l : List Char) : Prop :=
  (∀ c ∈ l, isWs c = true → c = ' ') ∧
  List.Chain' (fun a b => isWs a = false ∨ isWs b = false) l

/-- Character list with no leading and no trailing whitespace. -/
def noEdgeWs (l : List Char) : Prop :=
  (∀ c, l.head? = some c → isWs c = false) ∧
  (∀ c, l.getLast? = some c → isWs c = false)

/-! ## Concrete turn sequences used to instantiate the model -/

/-- Message number `i` of the demonstration sequence. -/
def demoInput (i : Nat) : TurnInput := ⟨1, toString i, none, none, none⟩

/-- Oracle of a fully successful turn: storage healthy, Gemini extraction
yields "ok", Telegram calls succeed, gTTS succeeds. -/
def demoOracle : TurnOracle :=
  ⟨false, true, some "ok", true, false, true, true, false, 0, 0, "t.mp3"⟩

/-- Fifty-one successful sequential turns, message texts "1" … "51". -/
def demoTurns : List (TurnInput × TurnOracle) :=
  (List.range 51).map (fun i => (demoInput (i + 1), demoOracle))

/-! # Theorems -/

/-! ## Whitespace-collapse laws -/

theorem collapseAux_mem {l : List Char} {b : Bool} {c : Char}
    (h : c ∈ collapseAux l b) : c = ' ' ∨ c ∈ l := by
  induction l generalizing b with
  | nil => simp [collapseAux] at h
  | cons a cs ih =>
    by_cases ha : isWs a = true
    · simp only [collapseAux, ha, if_true] at h
      cases b with
      | true =>
        rcases ih h with h1 | h1
        · exact Or.inl h1
        · exact Or.inr (List.mem_cons_of_mem _ h1)
      | false =>
        rcases List.mem_cons.mp h with h1 | h1
        · exact Or.inl h1
        · rcases ih h1 with h2 | h2
          · exact Or.inl h2
          · exact Or.inr (List.mem_cons_of_mem _ h2)
    · simp only [collapseAux, ha, if_false] at h
      rcases List.mem_cons.mp h with h1 | h1
      · exact Or.inr (h1 ▸ List.mem_cons_self _ _)
      · rcases ih h1 with h2 | h2
        · exact Or.inl h2
        · exact Or.inr (List.mem_cons_of_mem _ h2)

theorem collapseAux_true_head {l : List Char} {c : Char}
    (h : (collapseAux l true).head? = some c) : isWs c = false := by
  induction l with
  | nil => simp [collapseAux] at h
  | cons a cs ih =>
    by_cases ha : isWs a = true
    · simp only [collapseAux, ha, if_true] at h
      exact ih h
    · simp only [collapseAux, ha, if_false, List.head?_cons] at h
      cases h
      simpa using ha

theorem collapseAux_wsNormal (l : List Char) (b : Bool) :
    wsNormal (collapseAux l b) := by
  induction l generalizing b with
  | nil => exact ⟨by simp [collapseAux], by simp [collapseAux]⟩
  | cons a cs ih =>
    by_cases ha : isWs a = true
    · cases b with
      | true => simpa [collapseAux, ha] using ih true
      | false =>
        rcases ih true with ⟨ihall, ihchain⟩
        refine ⟨?_, ?_⟩
        · intro c hc hwc
          simp only [collapseAux, ha, if_true] at hc
          rcases List.mem_cons.mp hc with h1 | h1
          · exact h1
          · exact ihall c h1 hwc
        · simp only [collapseAux, ha, if_true]
          refine List.chain'_cons'.mpr ⟨?_, ihchain⟩
          intro y hy
          exact Or.inr (collapseAux_true_head hy)
    · rcases ih false with ⟨ihall, ihchain⟩
      refine ⟨?_, ?_⟩
      · intro c hc hwc
        simp only [collapseAux, ha, if_false] at hc
        rcases List.mem_cons.mp hc with h1 | h1
        · exact absurd (h1 ▸ hwc) (by simpa using ha)
        · exact ihall c h1 hwc
      · simp only [collapseAux, ha, if_false]
        refine List.chain'_cons'.mpr ⟨?_, ihchain⟩
        intro y _
        exact Or.inl (by simpa using ha)

theorem collapseAux_eq_self {l : List Char} {b : Bool} (hn : wsNormal l)
    (hb : b = true → ∀ c, l.head? = some c → isWs c = false) :
    collapseAux l b = l := by
  induction l generalizing b with
  | nil => cases b <;> rfl
  | cons a cs ih =>
    rcases hn with ⟨hall, hchain⟩
    by_cases ha : isWs a = true
    · cases b with
      | true => exact absurd (hb rfl a rfl) (by simp [ha])
      | false =>
        have haeq : a = ' ' := hall a (List.mem_cons_self _ _) ha
        have htail : collapseAux cs true = cs := by
          refine ih ⟨fun c hc => hall c (List.mem_cons_of_mem _ hc),
            hchain.tail⟩ ?_
          intro _ c hc
          have := (List.chain'_cons'.mp hchain).1 c hc
          rcases this with h1 | h1
          · exact absurd ha (by simp [h1])
          · exact h1
        subst haeq
        simp [collapseAux, ha, htail]
    · have htail : collapseAux cs false = cs := by
        refine ih ⟨fun c hc => hall c (List.mem_cons_of_mem _ hc),
          hchain.tail⟩ ?_
        intro hfalse
        cases hfalse
      simp [collapseAux, ha, htail]

theorem dropWhile_head_not {p : Char → Bool} {l : List Char} {c : Char}
    (h : (l.dropWhile p).head? = some c) : p c = false := by
  induction l with
  | nil => simp [List.dropWhile] at h
  | cons a cs ih =>
    by_cases ha : p a = true
    · rw [List.dropWhile_cons_of_pos ha] at h
      exact ih h
    · rw [List.dropWhile_cons_of_neg (by simpa using ha)] at h
      simp only [List.head?_cons, Option.some.injEq] at h
      cases h
      simpa using ha

theorem dropWhile_eq_self_of_head {p : Char → Bool} {l : List Char}
    (h : ∀ c, l.head? = some c → p c = false) : l.dropWhile p = l := by
  cases l with
  | nil => rfl
  | cons a cs => exact List.dropWhile_cons_of_neg (by simp [h a rfl])

theorem stripChars_noEdgeWs (l : List Char) : noEdgeWs (stripChars l) := by
  constructor
  · intro c hc
    rw [stripChars, List.head?_reverse] at hc
    rcases hs : ((l.dropWhile isWs).reverse.dropWhile isWs) with _ | ⟨a, t⟩
    · rw [hs] at hc; simp at hc
    · rw [hs] at hc
      rcases List.dropWhile_suffix (l := (l.dropWhile isWs).reverse)
        (p := isWs) with ⟨pre, hpre⟩
      rw [hs] at hpre
      have hsome := List.getLast?_eq_getLast (a :: t) (by simp)
      have hlast : ((l.dropWhile isWs).reverse).getLast? =
          (a :: t).getLast? := by
        rw [← hpre, List.getLast?_append, hsome]
        rfl
      rw [List.getLast?_reverse] at hlast
      have hhead : (l.dropWhile isWs).head? = some c := by rw [hlast, hc]
      exact dropWhile_head_not hhead
  · intro c hc
    rw [stripChars, List.getLast?_reverse] at hc
    exact dropWhile_head_not hc

theorem stripChars_eq_self {l : List Char} (h : noEdgeWs l) :
    stripChars l = l := by
  rcases h with ⟨hh, hl⟩
  have h1 : l.dropWhile isWs = l := dropWhile_eq_self_of_head hh
  have h2 : l.reverse.dropWhile isWs = l.reverse := by
    refine dropWhile_eq_self_of_head ?_
    intro c hc
    rw [List.head?_reverse] at hc
    exact hl c hc
  rw [stripChars, h1, h2, List.reverse_reverse]

theorem stripChars_wsNormal {l : List Char} (h : wsNormal l) :
    wsNormal (stripChars l) := by
  rcases h with ⟨hall, hchain⟩
  constructor
  · intro c hc hw
    refine hall c ?_ hw
    rw [stripChars] at hc
    rw [List.mem_reverse] at hc
    have hc2 := (List.dropWhile_suffix isWs).sublist.mem hc
    rw [List.mem_reverse] at hc2
    exact (List.dropWhile_suffix isWs).sublist.mem hc2
  · have st1 : List.Chain' (fun a b => isWs a = false ∨ isWs b = false)
        (l.dropWhile isWs) := hchain.suffix (List.dropWhile_suffix isWs)
    have st2 : List.Chain' (fun a b => isWs a = false ∨ isWs b = false)
        (l.dropWhile isWs).reverse := by
      rw [List.chain'_reverse]
      exact st1.imp fun a b hab => hab.symm
    have st3 : List.Chain' (fun a b => isWs a = false ∨ isWs b = false)
        ((l.dropWhile isWs).reverse.dropWhile isWs) :=
      st2.suffix (List.dropWhile_suffix isWs)
    rw [stripChars, List.chain'_reverse]
    exact st3.imp fun a b hab => hab.symm

theorem cleanList_wsNormal (l : List Char) : wsNormal (cleanList l) :=
  stripChars_wsNormal (collapseAux_wsNormal _ false)

theorem cleanList_noEdgeWs (l : List Char) : noEdgeWs (cleanList l) :=
  stripChars_noEdgeWs _

theorem cleanList_noEmoji {l : List Char} {c : Char} (hc : c ∈ cleanList l) :
    isEmojiChar c = false := by
  rw [cleanList, stripChars] at hc
  rw [List.mem_reverse] at hc
  have hc2 := (List.dropWhile_suffix isWs).sublist.mem hc
  rw [List.mem_reverse] at hc2
  have hc3 := (List.dropWhile_suffix isWs).sublist.mem hc2
  rcases collapseAux_mem hc3 with h1 | h1
  · rw [h1]; decide
  · simpa using (List.mem_filter.mp h1).2

theorem cleanList_idem (l : List Char) : cleanList (cleanList l) = cleanList l := by
  have h1 : removeEmojis (cleanList l) = cleanList l :=
    List.filter_eq_self.mpr fun c hc => by
      simp [cleanList_noEmoji hc]
  have h2 : collapseWs (cleanList l) = cleanList l :=
    collapseAux_eq_self (cleanList_wsNormal l) (fun hfalse => by cases hfalse)
  have h3 : stripChars (cleanList l) = cleanList l :=
    stripChars_eq_self (cleanList_noEdgeWs l)
  calc cleanList (cleanList l)
      = stripChars (collapseWs (removeEmojis (cleanList l))) := rfl
    _ = cleanList l := by rw [h1, h2, h3]

/-! ## Fallback-pool facts -/

theorem fallback_index_lt (h : String → Int) (msg : String) (uid : Int) :
    fallback_index h msg uid < fallback_responses.length := by
  have hpos : (0 : Int) < (fallback_responses.length : Int) := by decide
  have h1 := Int.emod_lt_of_pos (h (msg ++ toString uid)) hpos
  have h2 := Int.emod_nonneg (h (msg ++ toString uid))
    (Int.ne_of_gt hpos)
  rw [fallback_index]
  omega

theorem fallback_reply_mem (h : String → Int) (msg : String) (uid : Int) :
    fallback_reply h msg uid ∈ fallback_responses := by
  have hlt := fallback_index_lt h msg uid
  rw [fallback_reply, List.getD_eq_getElem?_getD, List.getElem?_eq_getElem hlt]
  exact List.getElem_mem hlt

theorem fallback_reply_ne_empty (h : String → Int) (msg : String) (uid : Int) :
    fallback_reply h msg uid ≠ "" := by
  have hne : ∀ s ∈ fallback_responses, s ≠ "" := by decide
  exact hne _ (fallback_reply_mem h msg uid)

/-! ## Claim theorems (C1, C2, C7, C10) -/

/-- C1: for every input message and user identifier (and every oracle
outcome of the remote Gemini exchange), `generate_maveli_response`
returns a non-empty string; the function is total, mirroring the
catch-all `except` handler, so no exception reaches the caller: a failed
or empty remote result yields a fallback-pool entry, which is non-empty. -/
theorem generate_maveli_response_nonempty (h : String → Int)
    (extracted : Option String) (msg : String) (uid : Int) :
    generate_maveli_response h extracted msg uid ≠ "" := by
  cases extracted with
  | none => exact fallback_reply_ne_empty h msg uid
  | some t =>
    by_cases ht : t = ""
    · have hgen : generate_maveli_response h (some t) msg uid =
          fallback_reply h msg uid := by
        simp [generate_maveli_response, ht]
      rw [hgen]
      exact fallback_reply_ne_empty h msg uid
    · simp [generate_maveli_response, ht]

/-- C1 witness: the non-emptiness guarantee instantiated at a concrete
remote-raise call. -/
theorem generate_maveli_response_nonempty_witness :
    generate_maveli_response zeroHash none "hi" 7 ≠ "" :=
  generate_maveli_response_nonempty zeroHash none "hi" 7

/-- C2: fallback selection is deterministic per (message, user id) pair:
any two calls whose Gemini oracle lands on the fallback path (remote
raise, or empty extracted text) return the same pool entry, and that
entry is the one at index `hash(message ++ str(userId)) mod poolSize`. -/
theorem fallback_selection_deterministic (h : String → Int)
    (o1 o2 : Option String) (msg : String) (uid : Int)
    (h1 : o1 = none ∨ o1 = some "") (h2 : o2 = none ∨ o2 = some "") :
    generate_maveli_response h o1 msg uid =
      generate_maveli_response h o2 msg uid ∧
    generate_maveli_response h o1 msg uid =
      fallback_responses.getD
        (h (msg ++ toString uid) %
          (fallback_responses.length : Int)).toNat "" := by
  have hfb : ∀ o : Option String, o = none ∨ o = some "" →
      generate_maveli_response h o msg uid = fallback_reply h msg uid := by
    intro o ho
    rcases ho with ho | ho <;> simp [ho, generate_maveli_response]
  rw [hfb o1 h1, hfb o2 h2]
  exact ⟨rfl, rfl⟩

/-- C2 witness: with a fixed process hash, a remote-raise call and an
empty-extraction call return the same fallback entry for the pair
("hi", 7). -/
theorem fallback_selection_deterministic_witness :
    generate_maveli_response zeroHash none "hi" 7 =
      generate_maveli_response zeroHash (some "") "hi" 7 :=
  (fallback_selection_deterministic zeroHash none (some "") "hi" 7
    (Or.inl rfl) (Or.inr rfl)).1

/-- C7: when the cleaned form of the input text is empty the speech
synthesizer returns `None` without invoking the remote gTTS service and
without creating a temporary file; and whenever the remote call raises,
the function returns `None` instead of propagating the exception. -/
theorem text_to_speech_none_cases (text temp_name : String) (tts_err : Bool) :
    (clean_text_for_tts text = "" →
      text_to_speech_malayalam tts_err temp_name text = ⟨none, false, false⟩) ∧
    (text_to_speech_malayalam true temp_name text).result = none := by
  constructor
  · intro hempty
    rw [text_to_speech_malayalam, if_pos hempty]
  · by_cases hempty : clean_text_for_tts text = ""
    · rw [text_to_speech_malayalam, if_pos hempty]
    · rw [text_to_speech_malayalam, if_neg hempty, if_pos rfl]

/-- C7 witness: the empty string and a symbols-only string both cleaned
to empty: the synthesizer returns `None`, calls no remote service and
creates no file, even with the error oracle armed. -/
theorem text_to_speech_none_cases_witness :
    text_to_speech_malayalam true "t.mp3" "😀😀😀" = ⟨none, false, false⟩ ∧
    text_to_speech_malayalam true "t.mp3" "" = ⟨none, false, false⟩ :=
  ⟨(text_to_speech_none_cases "😀😀😀" "t.mp3" true).1 (by decide),
   (text_to_speech_none_cases "" "t.mp3" true).1 (by decide)⟩

/-- C10: the TTS text-cleaning function is idempotent: applying it twice
yields the same string as applying it once. -/
theorem clean_text_for_tts_idempotent (s : String) :
    clean_text_for_tts (clean_text_for_tts s) = clean_text_for_tts s :=
  congrArg String.mk (cleanList_idem s.data)

/-! ## History retrieval (C3) -/

theorem history_query_length (db : DBState) (uid : Int) (limit : Nat) :
    (history_query db uid limit).length ≤ limit := by
  simp only [history_query, List.length_reverse, List.length_map,
    List.length_take]
  exact Nat.min_le_left _ _

theorem history_query_sorted (db : DBState) (uid : Int) (limit : Nat) :
    List.Sorted (fun e1 e2 : HistEntry => e1.timestamp ≤ e2.timestamp)
      (history_query db uid limit) := by
  have hs : List.Sorted tsDesc
      (List.insertionSort tsDesc
        (db.conversations.filter (fun c => c.user_id == uid))) :=
    List.sorted_insertionSort tsDesc _
  have htake := List.Pairwise.sublist (List.take_sublist limit _) hs
  have hmap : List.Pairwise
      (fun e1 e2 : HistEntry => e2.timestamp ≤ e1.timestamp)
      (((List.insertionSort tsDesc
          (db.conversations.filter (fun c => c.user_id == uid))).take
            limit).map ConvRow.toEntry) :=
    List.pairwise_map.mpr (htake.imp fun hab => hab)
  exact List.pairwise_reverse.mpr hmap

theorem insertionSort_append_fresh (row : ConvRow) :
    ∀ l : List ConvRow, (∀ c ∈ l, c.timestamp < row.timestamp) →
    ∃ rest, List.insertionSort tsDesc (l ++ [row]) = row :: rest := by
  intro l
  induction l with
  | nil => exact fun _ => ⟨[], rfl⟩
  | cons x xs ih =>
    intro hfresh
    rcases ih (fun c hc => hfresh c (List.mem_cons_of_mem _ hc)) with
      ⟨rest, hrest⟩
    refine ⟨List.orderedInsert tsDesc x rest, ?_⟩
    have hx : ¬ tsDesc x row := by
      have := hfresh x (List.mem_cons_self _ _)
      rw [tsDesc]
      omega
    have hstep : List.insertionSort tsDesc ((x :: xs) ++ [row]) =
        List.orderedInsert tsDesc x
          (List.insertionSort tsDesc (xs ++ [row])) := rfl
    rw [hstep, hrest, List.orderedInsert, if_neg hx]

theorem history_query_last_after_save (db : DBState) (uid : Int)
    (limit : Nat) (row : ConvRow) (hrow : row.user_id = uid)
    (hfresh : ∀ c ∈ db.conversations, c.user_id = uid →
      c.timestamp < row.timestamp)
    (hlim : 1 ≤ limit) :
    (history_query (save_conversation db false row).1 uid limit).getLast? =
      some row.toEntry := by
  have hconv : (save_conversation db false row).1.conversations =
      db.conversations ++ [row] := rfl
  have hfilter : ((db.conversations ++ [row]).filter
      (fun c => c.user_id == uid)) =
      db.conversations.filter (fun c => c.user_id == uid) ++ [row] := by
    rw [List.filter_append]
    simp [List.filter, hrow]
  have hfresh2 : ∀ c ∈ db.conversations.filter (fun c => c.user_id == uid),
      c.timestamp < row.timestamp := by
    intro c hc
    have hm := List.mem_filter.mp hc
    exact hfresh c hm.1 (by simpa using hm.2)
  rcases insertionSort_append_fresh row _ hfresh2 with ⟨rest, hsort⟩
  rw [history_query, hconv, hfilter, hsort, List.getLast?_reverse,
    List.head?_map, List.head?_take]
  have hne : limit ≠ 0 := by omega
  simp [hne]

/-- C3: history retrieval (with a healthy storage layer) returns at most
`limit` entries, in non-decreasing timestamp order — the most recent
`limit` turns selected then reversed — and when it runs right after a
successful save of a turn for that user (the saved row carrying a strictly
fresher timestamp than every stored turn of that user, as `utcnow`
provides), the newly saved turn is the last element. -/
theorem get_history_spec (db : DBState) (uid : Int) (limit : Nat)
    (row : ConvRow) (hrow : row.user_id = uid)
    (hfresh : ∀ c ∈ db.conversations, c.user_id = uid →
      c.timestamp < row.timestamp)
    (hlim : 1 ≤ limit) :
    (get_user_conversation_history db false uid limit).2.length ≤ limit ∧
    List.Sorted (fun e1 e2 : HistEntry => e1.timestamp ≤ e2.timestamp)
      (get_user_conversation_history db false uid limit).2 ∧
    (get_user_conversation_history
        (save_conversation db false row).1 false uid limit).2.getLast? =
      some row.toEntry :=
  ⟨history_query_length db uid limit,
   history_query_sorted db uid limit,
   history_query_last_after_save db uid limit row hrow hfresh hlim⟩

/-- C3 witness: saving the turn ("hi", "yo") at timestamp 5 for user 1
into the empty store and reading back with limit 3 yields that turn as
the last history element. -/
theorem get_history_spec_witness :
    (get_user_conversation_history
        (save_conversation DBState.init false
          ⟨1, "hi", "yo", 5, some 10, true, none⟩).1 false 1 3).2.getLast? =
      some ⟨"hi", "yo", 5, true⟩ :=
  (get_history_spec DBState.init 1 3 ⟨1, "hi", "yo", 5, some 10, true, none⟩
    rfl (by simp [DBState.init]) (by decide)).2.2

/-! ## Storage failure policy (C6) -/

/-- C6: every modelled storage operation — user upsert, turn save,
history read, stats read — reacts to a storage-layer error by leaving the
committed state unchanged (the rollback/close of its `except` block) and
returning its safe default: `False` for the writes, the empty list for
the history read, zeroed aggregates for the stats read.  Each operation
is a total function, mirroring that the `except SQLAlchemyError` blocks
let no storage error propagate to the caller. -/
theorem storage_error_safe_defaults (db : DBState) (uid : Int)
    (username first_name last_name : Option String) (row : ConvRow)
    (limit : Nat) :
    create_or_update_user db true uid username first_name last_name =
      (db, false) ∧
    save_conversation db true row = (db, false) ∧
    get_user_conversation_history db true uid limit = (db, []) ∧
    get_user_stats db true = (db, ⟨0, 0, 0, 0⟩) :=
  ⟨rfl, rfl, rfl, rfl⟩

/-! ## Ring buffer (C8) -/

theorem pushRecent_length_le (l : List RecentMsg) (e : RecentMsg) :
    (pushRecent l e).length ≤ 50 := by
  simp only [pushRecent]
  split
  · simp only [List.length_drop]
    omega
  · rename_i hle
    simp only [List.length_append, List.length_singleton] at hle ⊢
    omega

theorem markLast_length (l : List RecentMsg) (resp : String) :
    (markLast l resp).length = l.length := by
  rw [markLast]
  cases hl : l.getLast? with
  | none => rfl
  | some e =>
    have hne : l ≠ [] := by
      intro hnil
      rw [hnil] at hl
      simp at hl
    have hpos : 1 ≤ l.length := List.length_pos.mpr hne
    simp only [List.length_append, List.length_singleton,
      List.length_dropLast]
    omega

theorem handle_message_recent_le (h : String → Int) (w : World)
    (inp : TurnInput) (o : TurnOracle) :
    ((handle_message h w inp o).stats.recent_messages).length ≤ 50 := by
  simp only [handle_message]
  split
  · exact pushRecent_length_le _ _
  · split
    · exact pushRecent_length_le _ _
    · split
      · split
        · rw [markLast_length]
          exact pushRecent_length_le _ _
        · exact pushRecent_length_le _ _
      · split
        · rw [markLast_length]
          exact pushRecent_length_le _ _
        · exact pushRecent_length_le _ _

set_option maxRecDepth 100000 in
/-- C8: the recent-messages ring buffer never exceeds 50 entries at the
end of a turn (whatever the state before the turn), and eviction is FIFO:
after the 51 sequential demonstration turns with messages "1" … "51" the
entry of turn #1 has been evicted and the buffer contains exactly the
entries of turns #2 … #51, starting with turn #2. -/
theorem recent_buffer_capped_fifo :
    (∀ (h : String → Int) (w : World) (inp : TurnInput) (o : TurnOracle),
      ((handle_message h w inp o).stats.recent_messages).length ≤ 50) ∧
    ((run zeroHash demoTurns World.init).stats.recent_messages.map
        (fun e => e.message)) =
      (List.range 50).map (fun i => toString (i + 2)) :=
  ⟨handle_message_recent_le, by decide⟩

/-! ## Turn counters (C9) -/

theorem handle_message_counts_success (h : String → Int) (w : World)
    (inp : TurnInput) (o : TurnOracle)
    (htyping : o.typing_ok = true) (haction : o.voice_action_ok = true)
    (hdeliver : deliveryOk h inp o = true) :
    (handle_message h w inp o).stats.failed_responses =
      w.stats.failed_responses ∧
    (handle_message h w inp o).stats.successful_responses =
      w.stats.successful_responses + 1 := by
  rw [deliveryOk] at hdeliver
  rcases hres : (text_to_speech_malayalam o.tts_err o.temp_name
      (generate_maveli_response h o.gen_extracted inp.msg inp.uid)).result
    with _ | path
  · rw [hres] at hdeliver
    simp only [] at hdeliver
    simp [handle_message, htyping, haction, hres, hdeliver]
  · rw [hres] at hdeliver
    simp only [] at hdeliver
    simp [handle_message, htyping, haction, hres, hdeliver]

/-- C9: in a turn whose Gemini oracle raises (`gen_extracted = none`) and
whose delivery succeeds, the reply delivered is one of the fixed fallback
pool entries, the `failed_responses` counter is unchanged by the turn,
and `successful_responses` increments by exactly one. -/
theorem fallback_turn_counts (h : String → Int) (w : World)
    (inp : TurnInput) (o : TurnOracle)
    (hgen : o.gen_extracted = none)
    (htyping : o.typing_ok = true) (haction : o.voice_action_ok = true)
    (hdeliver : deliveryOk h inp o = true) :
    generate_maveli_response h o.gen_extracted inp.msg inp.uid ∈
      fallback_responses ∧
    (handle_message h w inp o).stats.failed_responses =
      w.stats.failed_responses ∧
    (handle_message h w inp o).stats.successful_responses =
      w.stats.successful_responses + 1 := by
  refine ⟨?_, (handle_message_counts_success h w inp o htyping haction
    hdeliver).1, (handle_message_counts_success h w inp o htyping haction
      hdeliver).2⟩
  rw [hgen]
  exact fallback_reply_mem h inp.msg inp.uid

set_option maxRecDepth 100000 in
/-- C9 witness: a concrete turn with the Gemini oracle raising and both
Telegram calls succeeding leaves `failed_responses` at 0 and brings
`successful_responses` to 1. -/
theorem fallback_turn_counts_witness :
    (handle_message zeroHash World.init (demoInput 1)
        { demoOracle with gen_extracted := none }).stats.failed_responses =
      World.init.stats.failed_responses ∧
    (handle_message zeroHash World.init (demoInput 1)
        { demoOracle with gen_extracted := none }).stats.successful_responses =
      World.init.stats.successful_responses + 1 :=
  ⟨(fallback_turn_counts zeroHash World.init (demoInput 1)
      { demoOracle with gen_extracted := none } rfl rfl rfl (by decide)).2.1,
   (fallback_turn_counts zeroHash World.init (demoInput 1)
      { demoOracle with gen_extracted := none } rfl rfl rfl (by decide)).2.2⟩

/-! ## Temporary audio files (C4) -/

set_option maxRecDepth 100000 in
/-- C4 (evaluation at the failing executions): in a turn where synthesis
succeeds but `send_voice` raises, and likewise in a turn where the gTTS
call raises after the temporary file was created, `handle_message` ends
with the temporary file still on disk: the `except` block never calls
`cleanup_temp_file`, so the claimed "deleted on every exit path" fails on
the code. -/
theorem temp_file_leak_on_failed_delivery :
    (handle_message zeroHash World.init (demoInput 1)
      { demoOracle with send_voice_ok := false }).disk = ["t.mp3"] ∧
    (handle_message zeroHash World.init (demoInput 1)
      { demoOracle with tts_err := true }).disk = ["t.mp3"] :=
  ⟨by decide, by decide⟩

/-! ## Referential integrity of saved turns (C5) -/

theorem upsert_users_has_uid (db : DBState) (uid : Int)
    (un fn ln : Option String) :
    ((create_or_update_user db false uid un fn ln).1.users.any
      (fun u => u.id == uid)) = true := by
  by_cases hex : db.users.any (fun u => u.id == uid) = true
  · have husers : (create_or_update_user db false uid un fn ln).1.users =
        db.users.map (fun u =>
          if u.id == uid then
            { u with username := un, first_name := fn, last_name := ln,
                     message_count := u.message_count + 1 }
          else u) := by
      simp [create_or_update_user, hex]
    rcases List.any_eq_true.mp hex with ⟨u, hu, hid⟩
    rw [husers, List.any_map]
    refine List.any_eq_true.mpr ⟨u, hu, ?_⟩
    simp [Function.comp, hid]
  · have husers : (create_or_update_user db false uid un fn ln).1.users =
        db.users ++ [⟨uid, un, fn, ln, 1, true⟩] := by
      simp [create_or_update_user, hex]
    rw [husers, List.any_append]
    simp

theorem upsert_users_any_mono (db : DBState) (uid x : Int)
    (un fn ln : Option String)
    (hx : db.users.any (fun u => u.id == x) = true) :
    ((create_or_update_user db false uid un fn ln).1.users.any
      (fun u => u.id == x)) = true := by
  by_cases hex : db.users.any (fun u => u.id == uid) = true
  · have husers : (create_or_update_user db false uid un fn ln).1.users =
        db.users.map (fun u =>
          if u.id == uid then
            { u with username := un, first_name := fn, last_name := ln,
                     message_count := u.message_count + 1 }
          else u) := by
      simp [create_or_update_user, hex]
    rcases List.any_eq_true.mp hx with ⟨u, hu, hid⟩
    rw [husers, List.any_map]
    refine List.any_eq_true.mpr ⟨u, hu, ?_⟩
    by_cases h2 : u.id == uid <;> simp [Function.comp, h2, hid]
  · have husers : (create_or_update_user db false uid un fn ln).1.users =
        db.users ++ [⟨uid, un, fn, ln, 1, true⟩] := by
      simp [create_or_update_user, hex]
    rw [husers, List.any_append, hx]
    simp

theorem upsert_conversations_eq (db : DBState) (uid : Int)
    (un fn ln : Option String) :
    (create_or_update_user db false uid un fn ln).1.conversations =
      db.conversations := by
  by_cases hex : db.users.any (fun u => u.id == uid) = true <;>
    simp [create_or_update_user, hex]

theorem save_users_eq (db : DBState) (err : Bool) (row : ConvRow) :
    (save_conversation db err row).1.users = db.users := by
  cases err <;> rfl

theorem save_conversations_eq (db : DBState) (row : ConvRow) :
    (save_conversation db false row).1.conversations =
      db.conversations ++ [row] := rfl

theorem handle_message_preserves_inv (h : String → Int) (w : World)
    (inp : TurnInput) (o : TurnOracle)
    (hw : convUserInv w = true) (ho : o.upsert_err = false) :
    convUserInv (handle_message h w inp o) = true := by
  rw [convUserInv] at hw
  have hconvs := upsert_conversations_eq w.db inp.uid inp.username
    inp.first_name inp.last_name
  have hinv1 : (create_or_update_user w.db false inp.uid inp.username
      inp.first_name inp.last_name).1.conversations.all
      (fun c => (create_or_update_user w.db false inp.uid inp.username
        inp.first_name inp.last_name).1.users.any
          (fun u => u.id == c.user_id)) = true := by
    rw [hconvs]
    refine List.all_eq_true.mpr ?_
    intro c hc
    exact upsert_users_any_mono w.db inp.uid c.user_id _ _ _
      (List.all_eq_true.mp hw c hc)
  have hself := upsert_users_has_uid w.db inp.uid inp.username
    inp.first_name inp.last_name
  have hsave : ∀ (err : Bool) (row : ConvRow), row.user_id = inp.uid →
      ((save_conversation (create_or_update_user w.db false inp.uid
          inp.username inp.first_name inp.last_name).1 err
            row).1.conversations.all
        (fun c => (save_conversation (create_or_update_user w.db false
            inp.uid inp.username inp.first_name inp.last_name).1 err
              row).1.users.any (fun u => u.id == c.user_id))) = true := by
    intro err row hrow
    cases err
    · rw [save_conversations_eq, save_users_eq, List.all_append]
      simp only [hinv1, List.all_cons, List.all_nil, Bool.and_true,
        Bool.true_and, hrow]
      exact hself
    · exact hinv1
  rw [convUserInv]
  simp only [handle_message, ho]
  split
  · exact hinv1
  · split
    · exact hinv1
    · split
      · split
        · exact hsave o.save_err _ rfl
        · exact hinv1
      · split
        · exact hsave o.save_err _ rfl
        · exact hinv1

theorem run_preserves_inv (h : String → Int)
    (turns : List (TurnInput × TurnOracle)) :
    ∀ w : World, convUserInv w = true →
    (∀ t ∈ turns, t.2.upsert_err = false) →
    convUserInv (run h turns w) = true := by
  induction turns with
  | nil => exact fun w hw _ => hw
  | cons t ts ih =>
    intro w hw hok
    have hstep : run h (t :: ts) w = run h ts (handle_message h w t.1 t.2) :=
      rfl
    rw [hstep]
    exact ih _ (handle_message_preserves_inv h w t.1 t.2 hw
      (hok t (List.mem_cons_self _ _)))
      (fun t2 ht2 => hok t2 (List.mem_cons_of_mem _ ht2))

set_option maxRecDepth 100000 in
/-- C5 counterexample: one reachable execution — a single turn whose user
upsert hits a storage error while the conversation save succeeds —
produces a database state holding a conversations row whose `user_id`
(value 1) matches no users row, so the claimed invariant fails on the
code as stated. -/
theorem conv_user_invariant_counterexample :
    convUserInv (handle_message zeroHash World.init (demoInput 1)
      { demoOracle with upsert_err := true }) = false := by decide

/-- C5 (amended): in every state reached by a sequence of turns whose
user upserts all succeed (no storage error during the upsert), every
conversations row's `user_id` references a users row: the upsert precedes
the save inside each turn and user rows are never deleted. -/
theorem conv_user_invariant_of_upsert_ok (h : String → Int)
    (turns : List (TurnInput × TurnOracle))
    (hok : ∀ t ∈ turns, t.2.upsert_err = false) :
    convUserInv (run h turns World.init) = true :=
  run_preserves_inv h turns World.init rfl hok

set_option maxRecDepth 100000 in
/-- C5 witness: a healthy single-turn run satisfies the invariant. -/
theorem conv_user_invariant_of_upsert_ok_witness :
    convUserInv (run zeroHash [(demoInput 1, demoOracle)] World.init) =
      true :=
  conv_user_invariant_of_upsert_ok zeroHash [(demoInput 1, demoOracle)]
    (by
      intro t ht
      rw [List.mem_singleton.mp ht]
      rfl)

end Maveli
